import Mathlib

/-!
Verification of the PARSER-WB1 synchronization/normalization core against its
specification.  The JavaScript sources are shallowly embedded: pure functions
become Lean functions, JavaScript primitive values become the `JsPrim` type,
HTTP fetches become oracle parameters, `while` loops become fueled or bounded
recursion, and JavaScript's stable `Array.prototype.sort` becomes a stable
insertion sort (`jsSortBy`).
-/

namespace WB

/-! ### A model of JavaScript's stable sort

`Array.prototype.sort(cmp)` is a stable sort ordering `a` before `b` when
`cmp a b ≤ 0`.  We model it with a stable insertion sort over a boolean
"may precede" relation `le a b = (cmp a b ≤ 0)`: an element is inserted
before the first earlier-sorted element it may precede, which reproduces the
stable order of the source's sort for a consistent comparator. -/

def insertLe (le : α → α → Bool) (a : α) : List α → List α
  | [] => [a]
  | b :: l => if le a b then a :: b :: l else b :: insertLe le a l

/-- Stable sort modelling `Array.prototype.sort` with comparator-induced `le`. -/
def jsSortBy (le : α → α → Bool) : List α → List α
  | [] => []
  | a :: l => insertLe le a (jsSortBy le l)

/-! ### JavaScript primitive values

`JsPrim` models the JavaScript primitives these sources actually traffic in
(`undefined`, `null`, booleans, numbers, strings).  Numbers are modelled as
integers: every numeric value appearing in the verified code paths
(identifiers, timestamps in milliseconds) is integral. -/

inductive JsPrim where
  | undef
  | null
  | bool (b : Bool)
  | num (n : Int)
  | str (s : String)
deriving Repr, DecidableEq

/-- Boolean test that the first list is an initial segment of the second. -/
def listPrefixOf : List Char → List Char → Bool
  | [], _ => true
  | _ :: _, [] => false
  | x :: xs, y :: ys => x = y && listPrefixOf xs ys

/-- The `String.prototype.startsWith` test. -/
def strStartsWith (s pre : String) : Bool := listPrefixOf pre.toList s.toList

/-- The `String.prototype.includes` test for a single character. -/
def strContainsChar (s : String) (c : Char) : Bool := s.toList.contains c

/-- The `String.prototype.trim` operation (strip whitespace at both ends). -/
def jsTrim (s : String) : String :=
  String.mk (((s.toList.dropWhile Char.isWhitespace).reverse.dropWhile
    Char.isWhitespace).reverse)

namespace JsPrim

/-- JavaScript truthiness: `undefined`, `null`, `false`, `0` and `""` are falsy. -/
def truthy : JsPrim → Bool
  | .undef => false
  | .null => false
  | .bool b => b
  | .num n => n != 0
  | .str s => s ≠ ""

/-- The `a || b` operator on primitives: `a` when truthy, otherwise `b`. -/
def jsOr (a b : JsPrim) : JsPrim := if a.truthy then a else b

/-- The `a ?? b` operator: `b` exactly when `a` is `null` or `undefined`. -/
def nullish (a b : JsPrim) : JsPrim :=
  match a with
  | .undef => b
  | .null => b
  | other => other

/-- The `value != null` loose comparison (false for both null and undefined). -/
def notNull : JsPrim → Bool
  | .undef => false
  | .null => false
  | _ => true

/-- The `String(v)` conversion. -/
def toStr : JsPrim → String
  | .undef => "undefined"
  | .null => "null"
  | .bool b => if b then "true" else "false"
  | .num n => toString n
  | .str s => s

/-- Parse an optionally signed decimal integer, the integral fragment of
JavaScript's string-to-number coercion; `none` models `NaN`. -/
def parseDec (s : String) : Option Int :=
  match s.toList with
  | [] => none
  | c :: rest =>
    let (sign, digits) : Int × List Char :=
      if c = '-' then (-1, rest) else if c = '+' then (1, rest) else (1, c :: rest)
    if digits = [] then none
    else if digits.all (fun d => d.isDigit) then
      some (sign * (digits.foldl (fun acc d => acc * 10 + (d.toNat - 48)) 0 : Nat))
    else none

/-- The `Number(v)` coercion; `none` models `NaN` (and non-finite results),
so `Number.isFinite` failure is `none`.  String coercion is modelled for
(optionally signed) decimal integer literals, the shape the catalog
identifiers take; other strings coerce to `NaN`. -/
def toNumber : JsPrim → Option Int
  | .undef => none
  | .null => some 0
  | .bool b => some (if b then 1 else 0)
  | .num n => some n
  | .str s => if jsTrim s = "" then some 0 else parseDec (jsTrim s)

end JsPrim

/-! ### Dates

`parseDate` embeds the source's

  function parseDate(value) {
    if (!value) return 0;
    const date = new Date(value);
    if (Number.isNaN(date.getTime())) return 0;
    return date.getTime();
  }

A numeric value is already a millisecond timestamp.  String parsing is
modelled for the ISO `YYYY-MM-DD` calendar-date form (parsed as UTC midnight,
exactly as JavaScript does); every other string shape is modelled as an
invalid date, which the source maps to 0. -/

/-- Days from the civil epoch 1970-01-01 (proleptic Gregorian), the standard
era-based calendar algorithm; all intermediate divisions act on non-negative
operands for the year ranges produced by four-digit years. -/
def daysFromCivil (y m d : Int) : Int :=
  let y2 : Int := if m ≤ 2 then y - 1 else y
  let era : Int := (if 0 ≤ y2 then y2 else y2 - 399) / 400
  let yoe : Int := y2 - era * 400
  let mp : Int := (m + 9) % 12
  let doy : Int := (153 * mp + 2) / 5 + d - 1
  let doe : Int := yoe * 365 + yoe / 4 - yoe / 100 + doy
  era * 146097 + doe - 719468

def isLeapYear (y : Int) : Bool := y % 4 = 0 && (y % 100 ≠ 0 || y % 400 = 0)

def daysInMonth (y m : Int) : Int :=
  if m = 2 then (if isLeapYear y then 29 else 28)
  else if m = 4 || m = 6 || m = 9 || m = 11 then 30
  else 31

/-- Millisecond timestamp of an ISO `YYYY-MM-DD` string at UTC midnight;
`none` models an invalid date. -/
def parseIsoDate (s : String) : Option Int :=
  match s.toList with
  | [y1, y2, y3, y4, h1, m1, m2, h2, d1, d2] =>
    if h1 = '-' && h2 = '-' &&
        [y1, y2, y3, y4, m1, m2, d1, d2].all (fun c => c.isDigit) then
      let num := fun (cs : List Char) =>
        (cs.foldl (fun acc c => acc * 10 + (c.toNat - 48)) 0 : Nat)
      let y : Int := num [y1, y2, y3, y4]
      let m : Int := num [m1, m2]
      let d : Int := num [d1, d2]
      if 1 ≤ m && m ≤ 12 && 1 ≤ d && d ≤ daysInMonth y m then
        some (daysFromCivil y m d * 86400000)
      else none
    else none
  | _ => none

/-- The source's `parseDate`: falsy values and invalid dates map to 0. -/
def parseDate (value : JsPrim) : Int :=
  if ¬ value.truthy then 0
  else
    match value with
    | .num n => n
    | .str s => (parseIsoDate s).getD 0
    | _ => 0

/-! ### Feedback items and `latestByDate`

A feedback row carries an optional identity and the five date-bearing fields
the source probes (`createdDate`, `createdAt`, `date`, `created`,
`updatedDate`), each an arbitrary primitive. -/

structure Row where
  id : JsPrim := .undef
  createdDate : JsPrim := .undef
  createdAt : JsPrim := .undef
  date : JsPrim := .undef
  created : JsPrim := .undef
  updatedDate : JsPrim := .undef
deriving Repr, DecidableEq

/-- Numeric `||` chaining: the first non-zero operand (0 is the only falsy
value `parseDate` can produce). -/
def orNZ (a b : Int) : Int := if a ≠ 0 then a else b

/-- The ranking key of `latestByDate`: the first non-zero `parseDate` result
over the five date fields in source order. -/
def resolvedDate (r : Row) : Int :=
  orNZ (parseDate r.createdDate)
    (orNZ (parseDate r.createdAt)
      (orNZ (parseDate r.date)
        (orNZ (parseDate r.created) (parseDate r.updatedDate))))

/-- Model of `Map.set` semantics: replace the value at an existing key in place
(keeping the key's original insertion position), otherwise append. -/
def mapSet (m : List (String × α)) (k : String) (v : α) : List (String × α) :=
  match m with
  | [] => [(k, v)]
  | (k2, v2) :: rest => if k2 = k then (k, v) :: rest else (k2, v2) :: mapSet rest k v

/-- Lookup in the association-list model of a `Map` / plain object. -/
def mapGet (m : List (String × α)) (k : String) : Option α :=
  match m with
  | [] => none
  | (k2, v2) :: rest => if k2 = k then some v2 else mapGet rest k

/-- The first loop of `latestByDate`: rows with a non-null `id` go into the
`Map` keyed by `String(row.id)` (later rows overwrite the stored value),
rows without an `id` are appended to `withoutId` in order. -/
def dedupeRows : List Row → List (String × Row) → List Row →
    List (String × Row) × List Row
  | [], m, w => (m, w)
  | r :: rest, m, w =>
    if r.id.notNull then dedupeRows rest (mapSet m r.id.toStr r) w
    else dedupeRows rest m (w ++ [r])

/-- Descending-date ordering used by the sort comparator
`(a, b) => bDate - aDate`: `a` may precede `b` when the comparator is ≤ 0. -/
def rowLe (a b : Row) : Bool := resolvedDate b ≤ resolvedDate a

/-- Selector for rows that carry the non-null dedupe identity `s`
(the `String(row.id)` key used by the dedupe map). -/
def keyIs (s : String) (r : Row) : Bool := r.id.notNull && (r.id.toStr == s)

/-- The dedupe/rank/limit procedure `latestByDate(rows, limit)`:
map-based dedupe by id, merge with the id-less rows, stable sort by
descending resolved date, then `limit ? all.slice(0, limit) : all`. -/
def latestByDate (rows : List Row) (limit : Nat) : List Row :=
  let (m, withoutId) := dedupeRows rows [] []
  let withId := m.map Prod.snd
  let all := withId ++ withoutId
  let sorted := jsSortBy rowLe all
  if limit ≠ 0 then sorted.take limit else sorted

/-- The fully deduplicated, ranked list before the final cap (the value of
`all` after sorting inside `latestByDate`). -/
def dedupedRanked (rows : List Row) : List Row :=
  let (m, withoutId) := dedupeRows rows [] []
  jsSortBy rowLe (m.map Prod.snd ++ withoutId)

/-! ### Review and question fetching

The HTTP endpoints are modelled as oracles from request parameters to the
item list the remote partition returns.  `fetchFeedbacks` / `fetchQuestions`
in the source only forward these parameters into the query string and
unwrap the response payload, so a call is exactly one oracle application. -/

structure FeedbackReq where
  nmId : Option Int
  isAnswered : Bool
  take : Nat
  skip : Nat
deriving Repr, DecidableEq

/-- Model of `fetchLatestReviews(token, nmId, limit)`: two concurrent partition
fetches of `min(max(limit, 1), 500)` newest-first items each, merged and
passed through `latestByDate` with the caller's `limit`. -/
def fetchLatestReviews (fetch : FeedbackReq → List Row) (nmId : Option Int)
    (limit : Nat) : List Row :=
  let take := min (max limit 1) 500
  let unanswered := fetch ⟨nmId, false, take, 0⟩
  let answered := fetch ⟨nmId, true, take, 0⟩
  latestByDate (unanswered ++ answered) limit

/-- One partition walk of `fetchAllQuestions`, a transcription of the
source's `while (items.length < limit)` loop with an explicit iteration
budget `fuel` (the loop has no syntactic bound; the stabilization theorem
below shows 12 iterations always suffice from `skip = 0`).  Page size is
fixed at `take = 1000`; the offset advances by the returned batch size and
the walk stops on a short page, on reaching `limit`, or once the advanced
offset exceeds 10000. -/
def questionsWalkFuel (fetch : FeedbackReq → List Row) (nmId : Option Int)
    (limit : Nat) (isAnswered : Bool) :
    Nat → Nat → List Row → List Row
  | 0, _, items => items
  | fuel + 1, skip, items =>
    if items.length < limit then
      let batch := fetch ⟨nmId, isAnswered, 1000, skip⟩
      if batch.length = 0 then items
      else
        let items2 := items ++ batch
        if batch.length < 1000 then items2
        else
          let skip2 := skip + batch.length
          if skip2 > 10000 then items2
          else questionsWalkFuel fetch nmId limit isAnswered fuel skip2 items2
    else items

/-- Model of `fetchAllQuestions(token, nmId, limit)`: walk the unanswered partition,
then keep appending through the answered partition, then dedupe/rank/limit.
The iteration budget 12 is sufficient for every oracle (see the
stabilization theorem for claim C9). -/
def fetchAllQuestions (fetch : FeedbackReq → List Row) (nmId : Option Int)
    (limit : Nat) : List Row :=
  let items1 := questionsWalkFuel fetch nmId limit false 12 0 []
  let items2 := questionsWalkFuel fetch nmId limit true 12 0 items1
  latestByDate items2 limit

/-! ### Photo selection

A photo collection entry is either a primitive (a string entry that starts
with `http` is a direct URL candidate) or an object probed at the five
scored keys `big`, `c516x688`, `c246x328`, `tm`, `url`, with its
`isMain === true` flag. -/

structure PhotoObj where
  isMain : JsPrim := .undef
  big : JsPrim := .undef
  c516x688 : JsPrim := .undef
  c246x328 : JsPrim := .undef
  tm : JsPrim := .undef
  url : JsPrim := .undef
deriving Repr, DecidableEq

inductive PhotoItem where
  | prim (p : JsPrim)
  | obj (o : PhotoObj)
deriving Repr, DecidableEq

/-- A scored candidate `[baseScore, isMain, score, -index, url]`. -/
structure Cand where
  base : Int
  main : Int
  score : Int
  negIdx : Int
  url : String
deriving Repr, DecidableEq

/-- The `keyScores` table in its source iteration order. -/
def keyScores (o : PhotoObj) : List (Int × JsPrim) :=
  [(60, o.big), (55, o.c516x688), (50, o.c246x328), (45, o.tm), (40, o.url)]

/-- Candidates contributed by one collection entry at position `index`. -/
def candsOfItem (baseScore : Int) (index : Nat) : PhotoItem → List Cand
  | .prim (.str s) =>
    if strStartsWith s "http" then [⟨baseScore, 0, 0, -(index : Int), s⟩] else []
  | .prim _ => []
  | .obj o =>
    let isMain : Int := if o.isMain = .bool true then 1 else 0
    (keyScores o).filterMap fun kv =>
      match kv.2 with
      | .str v =>
        if strStartsWith v "http" then some ⟨baseScore, isMain, kv.1, -(index : Int), v⟩ else none
      | _ => none

/-- The `forEach` of `collect`, carrying the entry index. -/
def collectFrom (baseScore : Int) : Nat → List PhotoItem → List Cand
  | _, [] => []
  | i, item :: rest => candsOfItem baseScore i item ++ collectFrom baseScore (i + 1) rest

/-- The `collect` helper: a non-array field yields no candidates. -/
def collect (items : Option (List PhotoItem)) (baseScore : Int) : List Cand :=
  match items with
  | none => []
  | some l => collectFrom baseScore 0 l

/-- Descending lexicographic comparison on the four score components,
induced by the source comparator that returns `b[i] - a[i]` at the first
differing component: `a` may precede `b` when the comparator is ≤ 0. -/
def candLe (a b : Cand) : Bool :=
  if a.base ≠ b.base then b.base ≤ a.base
  else if a.main ≠ b.main then b.main ≤ a.main
  else if a.score ≠ b.score then b.score ≤ a.score
  else if a.negIdx ≠ b.negIdx then b.negIdx ≤ a.negIdx
  else true

/-- A raw catalog card: both identifier spellings, naming fields, the three
photo collections (`none` models a non-array field), the three flat photo
fallbacks and the four version-timestamp candidates. -/
structure Card where
  nmID : JsPrim := .undef
  nmId : JsPrim := .undef
  title : JsPrim := .undef
  subjectName : JsPrim := .undef
  vendorCode : JsPrim := .undef
  photos : Option (List PhotoItem) := none
  mediaFiles : Option (List PhotoItem) := none
  images : Option (List PhotoItem) := none
  photo : JsPrim := .undef
  image : JsPrim := .undef
  imageUrl : JsPrim := .undef
  updatedAt : JsPrim := .undef
  updateAt : JsPrim := .undef
  modifiedAt : JsPrim := .undef
  createdAt : JsPrim := .undef
deriving Repr, DecidableEq

/-- Percent-encode one byte as `%HH` with uppercase hex. -/
def pctByte (b : Nat) : List Char :=
  let hx := fun (n : Nat) => if n < 10 then Char.ofNat (48 + n) else Char.ofNat (55 + n)
  [Char.ofNat 37, hx (b / 16), hx (b % 16)]

/-- UTF-8 bytes of a code point. -/
def utf8Bytes (n : Nat) : List Nat :=
  if n < 128 then [n]
  else if n < 2048 then [192 + n / 64, 128 + n % 64]
  else if n < 65536 then [224 + n / 4096, 128 + n / 64 % 64, 128 + n % 64]
  else [240 + n / 262144, 128 + n / 4096 % 64, 128 + n / 64 % 64, 128 + n % 64]

/-- Model of `encodeURIComponent`: unreserved characters (letters, digits, and
`- _ . ! ~ * ' ( )`) pass through, everything else is percent-encoded. -/
def encodeURIComponent (s : String) : String :=
  String.mk <| s.toList.flatMap fun c =>
    let n := c.toNat
    if (48 ≤ n && n ≤ 57) || (65 ≤ n && n ≤ 90) || (97 ≤ n && n ≤ 122) ||
        n ∈ [45, 95, 46, 33, 126, 42, 39, 40, 41] then [c]
    else (utf8Bytes n).flatMap pctByte

/-- Model of `appendPhotoVersion(url, card)`: append a `wbv` cache-busting query
parameter from the first truthy of the four timestamp fields. -/
def appendPhotoVersion (url : String) (card : Card) : String :=
  let versionRaw :=
    JsPrim.jsOr card.updatedAt (JsPrim.jsOr card.updateAt
      (JsPrim.jsOr card.modifiedAt card.createdAt))
  if ¬ versionRaw.truthy then url
  else
    let version := jsTrim versionRaw.toStr
    if version = "" then url
    else
      let joiner := if strContainsChar url '?' then "&" else "?"
      url ++ joiner ++ "wbv=" ++ encodeURIComponent version

/-- All scored candidates of a card in source concatenation order. -/
def cardCands (card : Card) : List Cand :=
  collect card.photos 30 ++ collect card.mediaFiles 20 ++ collect card.images 10

/-- Model of `selectPhotoUrl(card)`: sort the scored candidates and take the winner,
otherwise fall back to the flat `photo`, `image`, `imageUrl` fields; `none`
models the `null` result. -/
def selectPhotoUrl (card : Card) : Option String :=
  let candidates := cardCands card
  match jsSortBy candLe candidates with
  | c :: _ => some (appendPhotoVersion c.url card)
  | [] =>
    match card.photo, card.image, card.imageUrl with
    | .str s, _, _ =>
      if strStartsWith s "http" then some (appendPhotoVersion s card) else fallback2 card
    | _, _, _ => fallback2 card
where
  fallback2 (card : Card) : Option String :=
    match card.image, card.imageUrl with
    | .str s, _ =>
      if strStartsWith s "http" then some (appendPhotoVersion s card) else fallback1 card
    | _, _ => fallback1 card
  fallback1 (card : Card) : Option String :=
    match card.imageUrl with
    | .str s =>
      if strStartsWith s "http" then some (appendPhotoVersion s card) else none
    | _ => none

/-! ### Catalog normalization -/

structure Product where
  nm_id : Int
  title : String
  vendor_code : String
  photo_url : Option String
deriving Repr, DecidableEq

/-- The identifier resolution `Number(card.nmID ?? card.nmId)` with the
`Number.isFinite` guard: `none` is a dropped card. -/
def resolvedId (card : Card) : Option Int :=
  JsPrim.toNumber (JsPrim.nullish card.nmID card.nmId)

/-- Build one `Product` from a card (body of the `products.push` call). -/
def toProduct (card : Card) (nmId : Int) : Product :=
  { nm_id := nmId
    title := jsTrim (JsPrim.jsOr card.title (JsPrim.jsOr card.subjectName
      (.str "Без названия"))).toStr
    vendor_code :=
      let v := jsTrim (JsPrim.jsOr card.vendorCode (.str "-")).toStr
      if v = "" then "-" else v
    photo_url := selectPhotoUrl card }

/-- The dedupe loop of `normalizeProducts`: drop cards without a finite
identifier, keep the first card per identifier (`seen` set). -/
def normFilter : List Card → List Int → List Product
  | [], _ => []
  | c :: rest, seen =>
    match resolvedId c with
    | none => normFilter rest seen
    | some n =>
      if n ∈ seen then normFilter rest seen
      else toProduct c n :: normFilter rest (n :: seen)

/-- Product ordering induced by the source comparator
`titleCompare !== 0 ? titleCompare : a.nm_id - b.nm_id` where `titleCompare`
is `localeCompare(..., "ru", sensitivity base)`.  The locale comparison is an
opaque parameter `cmp` of the embedding (an ICU collation); `a` may precede
`b` when the comparator is ≤ 0. -/
def prodLe (cmp : String → String → Int) (a b : Product) : Bool :=
  (if cmp a.title b.title ≠ 0 then cmp a.title b.title else a.nm_id - b.nm_id) ≤ 0

/-- Model of `normalizeProducts(cards)`: dedupe then stable sort by `(title, nm_id)`. -/
def normalizeProducts (cmp : String → String → Int) (cards : List Card) :
    List Product :=
  jsSortBy (prodLe cmp) (normFilter cards [])

/-- A concrete instantiation of the locale comparison, faithful to
`localeCompare(b, "ru", sensitivity: "base")` on ASCII titles: letters
compare case-insensitively, a proper prefix sorts first. -/
def asciiBaseCmp (a b : String) : Int :=
  go (a.toList.map fun c => c.toLower.toNat) (b.toList.map fun c => c.toLower.toNat)
where
  go : List Nat → List Nat → Int
    | [], [] => 0
    | [], _ :: _ => -1
    | _ :: _, [] => 1
    | x :: xs, y :: ys => if x < y then -1 else if y < x then 1 else go xs ys

/-! ### Catalog pagination -/

/-- One page of `POST /content/v2/get/cards/list`: the `cards` array
(`none` models a payload whose `cards` is not an array) and the
continuation cursor echo. -/
structure CardsPage where
  cards : Option (List Card) := none
  cursorUpdatedAt : JsPrim := .undef
  cursorNmID : JsPrim := .undef
deriving Repr

/-- The accumulation loop of `fetchProductCards`, a transcription of the
source's `while (true)` with an explicit iteration budget `fuel` (the source
loop is unbounded when `maxItems` is 0 and every page is full, so the model
is necessarily fueled).  Pages are modelled as an oracle indexed by the
page ordinal; the requested page size is `Math.min(pageSize, 100)`.  Stop
conditions in source order: `maxItems` (when truthy) reached, short batch,
missing continuation cursor, non-finite or zero `cursor.nmID`. -/
def fetchRawCards (pages : Nat → CardsPage) (pageSize maxItems : Nat) :
    Nat → Nat → List Card → List Card
  | 0, _, cards => cards
  | fuel + 1, pageIdx, cards =>
    let payload := pages pageIdx
    let batch := (payload.cards).getD []
    let cards2 := cards ++ batch
    if maxItems ≠ 0 && cards2.length ≥ maxItems then cards2
    else if batch.length < min pageSize 100 then cards2
    else if ¬ payload.cursorUpdatedAt.truthy || ¬ payload.cursorNmID.truthy then cards2
    else
      match JsPrim.toNumber payload.cursorNmID with
      | none => cards2
      | some n =>
        if n = 0 then cards2
        else fetchRawCards pages pageSize maxItems fuel (pageIdx + 1) cards2

/-- Model of `fetchProductCards`: accumulate raw cards across pages, then
`normalizeProducts(cards.slice(0, maxItems))`. -/
def fetchProductCards (cmp : String → String → Int) (pages : Nat → CardsPage)
    (pageSize maxItems fuel : Nat) : List Product :=
  normalizeProducts cmp ((fetchRawCards pages pageSize maxItems fuel 0 []).take maxItems)

/-! ### Credential store with fallback

The remote key/value backend is reached through `kvCommand`, which either
returns a result or throws; we model one call's outcome as an
`Except String _` parameter.  The in-process fallback `memoryStore` is an
association list threaded explicitly.  Each operation returns
`Except String _` so that "never throws" is a provable statement, paired
with the updated fallback store. -/

structure KvEnv where
  kvUrl : String := ""
  kvToken : String := ""
deriving Repr, DecidableEq

/-- Model of `hasKV()`: both environment settings present (non-empty). -/
def hasKV (env : KvEnv) : Bool := env.kvUrl ≠ "" && env.kvToken ≠ ""

/-- Model of `getValue(key)`: remote `GET` when configured (falling back to the
in-process map on error), the in-process map otherwise; the remote outcome
is the oracle `remote`. -/
def getValue (env : KvEnv) (remote : Except String (Option String))
    (store : List (String × String)) (key : String) :
    Except String (Option String) :=
  if ¬ hasKV env then .ok (mapGet store key)
  else
    match remote with
    | .ok result => .ok result
    | .error _ => .ok (mapGet store key)

/-- Model of `setValue(key, value)`: write-through to the remote `SET` when
configured; on remote failure the value is written to the in-process map and
the call resolves `false`.  Returns the flag and the updated fallback map. -/
def setValue (env : KvEnv) (remote : Except String Unit)
    (store : List (String × String)) (key value : String) :
    Except String Bool × List (String × String) :=
  if ¬ hasKV env then (.ok true, mapSet store key value)
  else
    match remote with
    | .ok _ => (.ok true, store)
    | .error _ => (.ok false, mapSet store key value)

/-- Model of `deleteValue(key)`: remote `DEL` when configured (fallback delete on
error), in-process delete otherwise. -/
def deleteValue (env : KvEnv) (remote : Except String Unit)
    (store : List (String × String)) (key : String) :
    Except String Bool × List (String × String) :=
  if ¬ hasKV env then
    (.ok ((mapGet store key).isSome), store.filter (fun kv => kv.1 ≠ key))
  else
    match remote with
    | .ok _ => (.ok true, store)
    | .error _ => (.ok ((mapGet store key).isSome), store.filter (fun kv => kv.1 ≠ key))

/-! ### CSV serializer

Rows are arbitrary JSON-like records. -/

inductive Json where
  | null
  | bool (b : Bool)
  | num (n : Int)
  | str (s : String)
  | arr (items : List Json)
  | obj (fields : List (String × Json))
deriving Repr

namespace Json

/-- Equality test on JSON trees (structural). -/
def beq : Json → Json → Bool
  | .null, .null => true
  | .bool a, .bool b => a == b
  | .num a, .num b => a == b
  | .str a, .str b => a == b
  | .arr a, .arr b => beqList a b
  | .obj a, .obj b => beqFields a b
  | _, _ => false
where
  beqList : List Json → List Json → Bool
    | [], [] => true
    | a :: as2, b :: bs => beq a b && beqList as2 bs
    | _, _ => false
  beqFields : List (String × Json) → List (String × Json) → Bool
    | [], [] => true
    | (k, v) :: as2, (k2, v2) :: bs => k == k2 && beq v v2 && beqFields as2 bs
    | _, _ => false

instance : BEq Json := ⟨beq⟩

/-- Model of `JSON.stringify` restricted to the value shapes arrays can hold here. -/
def stringify : Json → String
  | .null => "null"
  | .bool b => if b then "true" else "false"
  | .num n => toString n
  | .str s => "\"" ++ String.mk (s.toList.flatMap escChar) ++ "\""
  | .arr items => "[" ++ String.intercalate "," (stringifyList items) ++ "]"
  | .obj fields => "\x7b" ++ String.intercalate "," (stringifyFields fields) ++ "\x7d"
where
  escChar (c : Char) : List Char :=
    if c = '"' then ['\\', '"']
    else if c = '\\' then ['\\', '\\']
    else if c = Char.ofNat 10 then ['\\', 'n']
    else if c = Char.ofNat 13 then ['\\', 'r']
    else if c = Char.ofNat 9 then ['\\', 't']
    else [c]
  stringifyList : List Json → List String
    | [] => []
    | j :: rest => stringify j :: stringifyList rest
  stringifyFields : List (String × Json) → List String
    | [] => []
    | (k, v) :: rest =>
      ("\"" ++ String.mk (k.toList.flatMap escChar) ++ "\":" ++ stringify v)
        :: stringifyFields rest

/-- The `String(v)` conversion on a flattened cell value (arrays join their elements with
commas, `null` and `undefined` elements vanish, plain objects render as
their object tag). -/
def jsString : Json → String
  | .null => "null"
  | .bool b => if b then "true" else "false"
  | .num n => toString n
  | .str s => s
  | .arr items => String.intercalate "," (elemStrings items)
  | .obj _ => "[object Object]"
where
  elemStrings : List Json → List String
    | [] => []
    | .null :: rest => "" :: elemStrings rest
    | j :: rest => jsString j :: elemStrings rest

end Json

/-- Plain-object assignment `output[key] = value`: overwrite in place,
otherwise append (JavaScript objects keep first-insertion key order). -/
def objSet (out : List (String × Json)) (k : String) (v : Json) :
    List (String × Json) :=
  match out with
  | [] => [(k, v)]
  | (k2, v2) :: rest => if k2 = k then (k, v) :: rest else (k2, v2) :: objSet rest k v

/-- The recursion of `flattenRow` over one nested value: nested plain
objects recurse over their entries with a dot-joined prefix, arrays are
stringified, scalars (including `null`) are stored at their path. -/
def flattenValue : Json → String → List (String × Json) → List (String × Json)
  | .obj fields2, nextKey, out => flattenFields fields2 nextKey out
  | .arr items, nextKey, out => objSet out nextKey (.str (Json.stringify (.arr items)))
  | scalar, nextKey, out => objSet out nextKey scalar
where
  flattenFields : List (String × Json) → String → List (String × Json) →
      List (String × Json)
    | [], _, out => out
    | (key, value) :: rest, prefx, out =>
      let nextKey := if prefx = "" then key else prefx ++ "." ++ key
      flattenFields rest prefx (flattenValue value nextKey out)

/-- Model of `flattenRow(obj)`: iterate a plain object's entries; a non-object (or
array) row collapses to the single column `value`. -/
def flattenRow (row : Json) : List (String × Json) :=
  match row with
  | .obj fields => flattenValue.flattenFields fields "" []
  | other => objSet [] "value" other

/-- Model of `csvEscape(value)`: `null`/`undefined` (a missing cell) becomes the
empty string; a value containing a quote, comma, CR or LF is quoted with
inner quotes doubled. -/
def csvEscape (value : Option Json) : String :=
  match value with
  | none => ""
  | some .null => ""
  | some v =>
    let s := Json.jsString v
    if strContainsChar s '"' || strContainsChar s ',' ||
        strContainsChar s (Char.ofNat 10) || strContainsChar s (Char.ofNat 13) then
      "\"" ++ String.mk (s.toList.flatMap fun c => if c = '"' then ['"', '"'] else [c]) ++ "\""
    else s

/-- Ordinal (code-unit) string comparison of JavaScript's default
`Array.prototype.sort()`. -/
def strOrdLe (a b : String) : Bool := go a.toList b.toList
where
  go : List Char → List Char → Bool
    | [], _ => true
    | _ :: _, [] => false
    | x :: xs, y :: ys =>
      if x.toNat < y.toNat then true
      else if y.toNat < x.toNat then false
      else go xs ys

/-- Set-accumulation of header keys across flattened rows in row order. -/
def headerKeys (flattened : List (List (String × Json))) : List String :=
  flattened.foldl
    (fun acc row => row.foldl (fun acc2 kv => if kv.1 ∈ acc2 then acc2 else acc2 ++ [kv.1]) acc)
    []

/-- Model of `toCsv(rows)`: flatten every row, compute the sorted header union, then
serialize each row against the full header set; missing cells are empty; the
whole output is prefixed with the byte-order mark. -/
def toCsv (rows : List Json) : String :=
  let flattened := rows.map flattenRow
  let headers := jsSortBy strOrdLe (headerKeys flattened)
  let lines :=
    String.intercalate "," headers ::
      flattened.map fun row =>
        String.intercalate "," (headers.map fun key => csvEscape (mapGet row key))
  String.mk [Char.ofNat 65279] ++ String.intercalate "\n" lines

/-- The header row `toCsv` computes: the first-seen-ordered union of all
flattened paths across every row, sorted ascending by code-unit order. -/
def csvHeaders (rows : List Json) : List String :=
  jsSortBy strOrdLe (headerKeys (rows.map flattenRow))

/-! ### Telegram initData verification

Byte strings are `List Nat` (each element a byte).  SHA-256 and HMAC are
implemented in full so the verification pipeline is computed bit-exactly. -/

/-- UTF-8 bytes of a Lean string. -/
def strBytes (s : String) : List Nat := s.toList.flatMap fun c => utf8Bytes c.toNat

/-- Right rotation within 32 bits. -/
def rotr (n x : Nat) : Nat := ((x >>> n) ||| (x <<< (32 - n))) % 4294967296

/-- The SHA-256 round constants. -/
def sha256K : List Nat :=
  [1116352408, 1899447441, 3049323471, 3921009573, 961987163, 1508970993,
   2453635748, 2870763221, 3624381080, 310598401, 607225278, 1426881987,
   1925078388, 2162078206, 2614888103, 3248222580, 3835390401, 4022224774,
   264347078, 604807628, 770255983, 1249150122, 1555081692, 1996064986,
   2554220882, 2821834349, 2952996808, 3210313671, 3336571891, 3584528711,
   113926993, 338241895, 666307205, 773529912, 1294757372, 1396182291,
   1695183700, 1986661051, 2177026350, 2456956037, 2730485921, 2820302411,
   3259730800, 3345764771, 3516065817, 3600352804, 4094571909, 275423344,
   430227734, 506948616, 659060556, 883997877, 958139571, 1322822218,
   1537002063, 1747873779, 1955562222, 2024104815, 2227730452, 2361852424,
   2428436474, 2756734187, 3204031479, 3329325298]

/-- The SHA-256 initial state. -/
def sha256H0 : List Nat :=
  [0x6a09e667, 0xbb67ae85, 0x3c6ef372, 0xa54ff53a, 0x510e527f, 0x9b05688c, 0x1f83d9ab, 0x5be0cd19]

/-- Big-endian 32-bit words from bytes. -/
def bytesToWords : List Nat → List Nat
  | a :: b :: c :: d :: rest => (a * 16777216 + b * 65536 + c * 256 + d) :: bytesToWords rest
  | _ => []

/-- SHA-256 padding: `0x80`, zeros, and the 64-bit big-endian bit length. -/
def padMessage (msg : List Nat) : List Nat :=
  let len := msg.length
  let bitLen := len * 8
  let padZeros := (55 - len % 64 + 64) % 64
  msg ++ [0x80] ++ List.replicate padZeros 0 ++
    [(bitLen >>> 56) % 256, (bitLen >>> 48) % 256, (bitLen >>> 40) % 256, (bitLen >>> 32) % 256,
     (bitLen >>> 24) % 256, (bitLen >>> 16) % 256, (bitLen >>> 8) % 256, bitLen % 256]

def smallSigma0 (x : Nat) : Nat := Nat.xor (rotr 7 x) (Nat.xor (rotr 18 x) (x >>> 3))
def smallSigma1 (x : Nat) : Nat := Nat.xor (rotr 17 x) (Nat.xor (rotr 19 x) (x >>> 10))
def bigSigma0 (x : Nat) : Nat := Nat.xor (rotr 2 x) (Nat.xor (rotr 13 x) (rotr 22 x))
def bigSigma1 (x : Nat) : Nat := Nat.xor (rotr 6 x) (Nat.xor (rotr 11 x) (rotr 25 x))

/-- Extend the 16-word block to the 64-word message schedule. -/
def extendSchedule : Nat → List Nat → List Nat
  | 0, acc => acc
  | n + 1, acc =>
    let i := acc.length
    let w15 := acc.getD (i - 15) 0
    let w2 := acc.getD (i - 2) 0
    let w16 := acc.getD (i - 16) 0
    let w7 := acc.getD (i - 7) 0
    extendSchedule n (acc ++ [(w16 + smallSigma0 w15 + w7 + smallSigma1 w2) % 4294967296])

/-- One SHA-256 compression round on the 8-word working state. -/
def compressRound (st : List Nat) (kw : Nat × Nat) : List Nat :=
  match st with
  | [a, b, c, d, e, f, g, h] =>
    let ch := Nat.xor (Nat.land e f) (Nat.land (4294967295 - e) g)
    let maj := Nat.xor (Nat.land a b) (Nat.xor (Nat.land a c) (Nat.land b c))
    let t1 := (h + bigSigma1 e + ch + kw.1 + kw.2) % 4294967296
    let t2 := (bigSigma0 a + maj) % 4294967296
    [(t1 + t2) % 4294967296, a, b, c, (d + t1) % 4294967296, e, f, g]
  | other => other

/-- Process one 64-byte block. -/
def processBlock (h : List Nat) (block : List Nat) : List Nat :=
  let w := extendSchedule 48 (bytesToWords block)
  let st := (sha256K.zip w).foldl compressRound h
  (h.zip st).map fun p => (p.1 + p.2) % 4294967296

/-- Split into 64-byte chunks (the list length bounds the recursion). -/
def chunksGo : Nat → List Nat → List (List Nat)
  | _, [] => []
  | 0, _ => []
  | fuel + 1, a :: rest => ((a :: rest).take 64) :: chunksGo fuel ((a :: rest).drop 64)

def chunks (l : List Nat) : List (List Nat) := chunksGo l.length l

/-- SHA-256 of a byte string, as 32 bytes. -/
def sha256 (msg : List Nat) : List Nat :=
  let digestWords := (chunks (padMessage msg)).foldl processBlock sha256H0
  digestWords.flatMap fun w => [(w >>> 24) % 256, (w >>> 16) % 256, (w >>> 8) % 256, w % 256]

/-- HMAC-SHA256 with byte-string key and message. -/
def hmacSha256 (key msg : List Nat) : List Nat :=
  let key := if key.length > 64 then sha256 key else key
  let key := key ++ List.replicate (64 - key.length) 0
  let ipad := key.map fun b => Nat.xor b 0x36
  let opad := key.map fun b => Nat.xor b 0x5c
  sha256 (opad ++ sha256 (ipad ++ msg))

/-- Lowercase hex encoding of bytes, as ASCII bytes. -/
def hexBytes (bytes : List Nat) : List Nat :=
  bytes.flatMap fun b =>
    let hx := fun (n : Nat) => if n < 10 then 48 + n else 87 + n
    [hx (b / 16), hx (b % 16)]

/-- Split a byte string on a separator byte. -/
def splitOnByte (sep : Nat) : List Nat → List (List Nat)
  | [] => [[]]
  | b :: rest =>
    let r := splitOnByte sep rest
    if b = sep then [] :: r
    else
      match r with
      | first :: others => (b :: first) :: others
      | [] => [[b]]

/-- Hex digit value of an ASCII byte, if any. -/
def hexVal (b : Nat) : Option Nat :=
  if 48 ≤ b && b ≤ 57 then some (b - 48)
  else if 97 ≤ b && b ≤ 102 then some (b - 87)
  else if 65 ≤ b && b ≤ 70 then some (b - 55)
  else none

/-- URL component decoding as `URLSearchParams` applies it: `+` becomes a
space, `%HH` becomes a byte, malformed escapes pass through literally. -/
def pctDecode : List Nat → List Nat
  | [] => []
  | 43 :: rest => 32 :: pctDecode rest
  | 37 :: h1 :: h2 :: rest =>
    match hexVal h1, hexVal h2 with
    | some a, some b => (a * 16 + b) :: pctDecode rest
    | _, _ => 37 :: pctDecode (h1 :: h2 :: rest)
  | b :: rest => b :: pctDecode rest

/-- Association-list update with plain-object semantics, over byte keys. -/
def bSet (m : List (List Nat × List Nat)) (k v : List Nat) :
    List (List Nat × List Nat) :=
  match m with
  | [] => [(k, v)]
  | (k2, v2) :: rest => if k2 = k then (k, v) :: rest else (k2, v2) :: bSet rest k v

def bGet (m : List (List Nat × List Nat)) (k : List Nat) : Option (List Nat) :=
  match m with
  | [] => none
  | (k2, v2) :: rest => if k2 = k then some v2 else bGet rest k

/-- Model of `parseInitData(initData)`: iterate the `URLSearchParams` entries of the
query string into a plain object (later duplicates overwrite, first
insertion position kept).  A segment without `=` has an empty value; empty
segments are skipped. -/
def parseInitData (initData : List Nat) : List (List Nat × List Nat) :=
  let segs := (splitOnByte 38 initData).filter (· ≠ [])
  segs.foldl
    (fun data seg =>
      let key := seg.takeWhile (· ≠ 61)
      let value := (seg.dropWhile (· ≠ 61)).drop 1
      bSet data (pctDecode key) (pctDecode value))
    []

/-- Byte-lexicographic order, the code-unit order of JavaScript's default
string sort on these ASCII keys. -/
def byteLe (a b : List Nat) : Bool :=
  match a, b with
  | [], _ => true
  | _ :: _, [] => false
  | x :: xs, y :: ys => if x < y then true else if y < x then false else byteLe xs ys

/-- Byte string of the literal `hash`. -/
def hashKey : List Nat := [104, 97, 115, 104]

/-- Join byte strings with a separator. -/
def joinBytes (sep : List Nat) : List (List Nat) → List Nat
  | [] => []
  | [x] => x
  | x :: y :: rest => x ++ sep ++ joinBytes sep (y :: rest)

/-- Model of `buildDataCheckString(data)`: all `key=value` pairs except `hash`,
sorted by key ascending, newline-joined. -/
def buildDataCheckString (data : List (List Nat × List Nat)) : List Nat :=
  let keys := (data.map Prod.fst).filter (· ≠ hashKey)
  let sorted := jsSortBy byteLe keys
  joinBytes [10] (sorted.map fun k => k ++ [61] ++ (bGet data k).getD [])

inductive VerifyResult where
  | fail (error : String)
  | pass (user : Option (List Nat))
deriving Repr, DecidableEq

/-- Model of `Number(data.auth_date || 0)` — absent or empty coerces to 0, otherwise
the decimal value (`none` models `NaN`). -/
def authDateNum (data : List (List Nat × List Nat)) : Option Int :=
  match bGet data (strBytes "auth_date") with
  | none => some 0
  | some v =>
    if v = [] then some 0
    else JsPrim.parseDec (String.mk (v.map Char.ofNat))

/-- Model of `verifyInitData(initData, botToken, maxAgeSeconds)`.  `jsonOk` is the
oracle for `JSON.parse` success on the `user` payload (an external builtin);
`now` is the current Unix time in seconds.  The secret key is the HMAC of
the bot token under the constant key `WebAppData`, and the computed
signature is the hex HMAC of the check string under that secret. -/
def verifyInitData (jsonOk : List Nat → Bool) (initData botToken : List Nat)
    (now : Int) (maxAgeSeconds : Int) : VerifyResult :=
  if initData = [] || botToken = [] then .fail "Missing initData or bot token."
  else
    let data := parseInitData initData
    match bGet data hashKey with
    | none => .fail "Missing hash in initData."
    | some hash =>
      if hash = [] then .fail "Missing hash in initData."
      else
        let dataCheckString := buildDataCheckString data
        let secretKey := hmacSha256 (strBytes "WebAppData") botToken
        let computedHash := hexBytes (hmacSha256 secretKey dataCheckString)
        if computedHash ≠ hash then .fail "Invalid initData signature."
        else
          let expired :=
            match authDateNum data with
            | none => false
            | some a => maxAgeSeconds ≠ 0 && a ≠ 0 && now - a > maxAgeSeconds
          if expired then .fail "initData expired."
          else
            match bGet data (strBytes "user") with
            | none => .pass none
            | some u =>
              if u = [] then .pass none
              else if jsonOk u then .pass (some u) else .fail "Invalid user JSON."

/-- Modelled from the spec: the hash the specification's words prescribe,
with the secret derived as HMAC-SHA256 of the constant string `WebAppData`
keyed by the bot secret (constant as message, bot token as key). -/
def specComputedHash (data : List (List Nat × List Nat)) (botToken : List Nat) :
    List Nat :=
  hexBytes (hmacSha256 (hmacSha256 botToken (strBytes "WebAppData"))
    (buildDataCheckString data))

/-! ### Concrete instances used by the claim witnesses and counterexamples -/

/-- The specification's feedback-ranking example, first item: id 1, 2024-01-01. -/
def c1row1 : Row := { id := .num 1, createdDate := .str "2024-01-01" }

/-- The specification's feedback-ranking example, second item: id 2, 2024-03-01. -/
def c1row2 : Row := { id := .num 2, createdDate := .str "2024-03-01" }

/-- The specification's feedback-ranking example, third item: id 1, 2024-01-02. -/
def c1row3 : Row := { id := .num 1, createdDate := .str "2024-01-02" }

/-- A catalog card with identifier 1. -/
def c2cardA : Card := { nmID := .num 1, title := .str "a" }

/-- A catalog card with identifier 2. -/
def c2cardB : Card := { nmID := .num 2, title := .str "b" }

/-- A single catalog page holding a duplicate of card 1 followed by card 2. -/
def c2pages : Nat → CardsPage := fun _ => { cards := some [c2cardA, c2cardA, c2cardB] }

/-- The bot token of the verification example. -/
def c3token : List Nat := strBytes "token"

/-- An initData payload whose hash is the one the code's derivation
(secret = HMAC-SHA256 keyed by the constant, over the bot token) yields for
the check string `a=1` under `c3token`. -/
def c3initData : List Nat :=
  strBytes ("a=1&hash=" ++ "13fab7f77589147729bb84c7afa3bdf93c4daf70a453a592e180ad7e4ba43074")

/-- A non-main `photos` object entry with a URL under `tm`. -/
def c4tmObj : PhotoObj := { tm := .str "http://photos.example/tm.jpg" }

/-- A `mediaFiles` object entry marked `isMain: true` with a URL under `big`. -/
def c4mainObj : PhotoObj := { isMain := .bool true, big := .str "http://media.example/main.jpg" }

/-- The photo-priority example card of claim C4. -/
def c4card : Card := { photos := some [.obj c4tmObj], mediaFiles := some [.obj c4mainObj] }

/-- A feedback item with no date-bearing field at all. -/
def c5noDate : Row := {}

/-- A feedback item dated before the Unix epoch (negative timestamp). -/
def c5preEpoch : Row := { createdDate := .str "1969-01-01" }

/-- Cards for the dedup-invariant witness. -/
def c6cardA : Card := { nmID := .num 7, title := .str "x" }

/-- A later card sharing the identifier of `c6cardA`. -/
def c6cardB : Card := { nmID := .num 7, title := .str "y" }

/-- A configured remote environment for the store-fallback witness. -/
def c7env : KvEnv := { kvUrl := "https://kv.example", kvToken := "secret" }

/-- The table round-trip example rows of claim C8. -/
def c8rows : List Json :=
  [.obj [("a", .num 1), ("b", .obj [("c", .num 2)])], .obj [("a", .num 3)]]

/-! ## Theorems

First, the generic facts about the stable-sort model. -/

theorem insertLe_perm (le : α → α → Bool) (a : α) (l : List α) :
    List.Perm (insertLe le a l) (a :: l) := by
  induction l with
  | nil => simp [insertLe]
  | cons b t ih =>
    simp only [insertLe]
    by_cases hab : le a b = true
    · simp [hab]
    · simp only [hab, if_false, Bool.false_eq_true]
      exact ((ih.cons b).trans (List.Perm.swap a b t))

theorem jsSortBy_perm (le : α → α → Bool) (l : List α) :
    List.Perm (jsSortBy le l) l := by
  induction l with
  | nil => simp [jsSortBy]
  | cons a t ih => exact (insertLe_perm le a (jsSortBy le t)).trans (ih.cons a)

theorem pairwise_insertLe (le : α → α → Bool)
    (total : ∀ a b, le a b || le b a)
    (trans : ∀ a b c, le a b → le b c → le a c)
    (a : α) (l : List α) (h : l.Pairwise (fun x y => le x y = true)) :
    (insertLe le a l).Pairwise (fun x y => le x y = true) := by
  induction l with
  | nil => simp [insertLe]
  | cons b t ih =>
    simp only [insertLe]
    by_cases hab : le a b = true
    · simp only [hab, if_true]
      refine List.Pairwise.cons ?_ h
      intro x hx
      rcases List.mem_cons.1 hx with rfl | hx
      · exact hab
      · exact trans a b x hab ((List.pairwise_cons.1 h).1 x hx)
    · simp only [hab, if_false, Bool.false_eq_true]
      have hba : le b a = true := by
        have := total a b
        simp [hab] at this
        exact this
      rcases List.pairwise_cons.1 h with ⟨hb, ht⟩
      refine List.Pairwise.cons ?_ (ih ht)
      intro x hx
      have := (insertLe_perm le a t).mem_iff.1 hx
      rcases List.mem_cons.1 this with rfl | hx2
      · exact hba
      · exact hb x hx2

theorem pairwise_jsSortBy (le : α → α → Bool)
    (total : ∀ a b, le a b || le b a)
    (trans : ∀ a b c, le a b → le b c → le a c)
    (l : List α) :
    (jsSortBy le l).Pairwise (fun x y => le x y = true) := by
  induction l with
  | nil => simp [jsSortBy]
  | cons a t ih => exact pairwise_insertLe le total trans a _ ih

theorem rowLe_total (a b : Row) : rowLe a b || rowLe b a := by
  simp only [rowLe, Bool.or_eq_true, decide_eq_true_eq]
  omega

theorem rowLe_trans (a b c : Row) : rowLe a b → rowLe b c → rowLe a c := by
  simp only [rowLe, decide_eq_true_eq]
  omega

theorem strOrdLe_go_total (a b : List Char) : strOrdLe.go a b || strOrdLe.go b a := by
  induction a generalizing b with
  | nil => simp [strOrdLe.go]
  | cons x xs ih =>
    cases b with
    | nil => simp [strOrdLe.go]
    | cons y ys =>
      simp only [strOrdLe.go]
      rcases Nat.lt_trichotomy x.toNat y.toNat with h | h | h
      · simp [h, Nat.not_lt.2 (Nat.le_of_lt h)]
      · simp [h, Nat.lt_irrefl, ih ys]
      · simp [h, Nat.not_lt.2 (Nat.le_of_lt h)]

theorem strOrdLe_go_trans (a b c : List Char) :
    strOrdLe.go a b → strOrdLe.go b c → strOrdLe.go a c := by
  induction a generalizing b c with
  | nil => simp [strOrdLe.go]
  | cons x xs ih =>
    cases b with
    | nil => simp [strOrdLe.go]
    | cons y ys =>
      cases c with
      | nil => simp [strOrdLe.go]
      | cons z zs =>
        simp only [strOrdLe.go]
        intro hab hbc
        by_cases hxy : x.toNat < y.toNat
        · by_cases hyz : y.toNat < z.toNat
          · simp [Nat.lt_trans hxy hyz]
          · by_cases hzy : z.toNat < y.toNat
            · simp [hyz, hzy] at hbc
            · have hxz : x.toNat < z.toNat := by omega
              simp [hxz]
        · by_cases hyx : y.toNat < x.toNat
          · simp [hxy, hyx] at hab
          · simp only [hxy, hyx, if_false] at hab
            by_cases hyz : y.toNat < z.toNat
            · have hxz : x.toNat < z.toNat := by omega
              simp [hxz]
            · by_cases hzy : z.toNat < y.toNat
              · simp [hyz, hzy] at hbc
              · simp only [hyz, hzy, if_false] at hbc
                have hxz : ¬ x.toNat < z.toNat := by omega
                have hzx : ¬ z.toNat < x.toNat := by omega
                simp [hxz, hzx, ih ys zs hab hbc]

theorem strOrdLe_total (a b : String) : strOrdLe a b || strOrdLe b a :=
  strOrdLe_go_total a.toList b.toList

theorem strOrdLe_trans (a b c : String) :
    strOrdLe a b → strOrdLe b c → strOrdLe a c :=
  strOrdLe_go_trans a.toList b.toList c.toList

theorem candLe_iff (a b : Cand) : candLe a b = true ↔
    b.base < a.base ∨ (b.base = a.base ∧ (b.main < a.main ∨ (b.main = a.main ∧
      (b.score < a.score ∨ (b.score = a.score ∧ b.negIdx ≤ a.negIdx))))) := by
  simp only [candLe]
  split_ifs with h1 h2 h3 h4 <;> simp_all <;> omega

theorem candLe_total (a b : Cand) : candLe a b || candLe b a := by
  simp only [Bool.or_eq_true, candLe_iff]
  omega

theorem candLe_trans (a b c : Cand) : candLe a b → candLe b c → candLe a c := by
  simp only [candLe_iff]
  omega

/-! ### Association-list and dedupe-map lemmas -/

theorem mapGet_mapSet_self (m : List (String × α)) (k : String) (v : α) :
    mapGet (mapSet m k v) k = some v := by
  induction m with
  | nil => simp [mapSet, mapGet]
  | cons kv rest ih =>
    obtain ⟨k2, v2⟩ := kv
    simp only [mapSet]
    by_cases h : k2 = k
    · simp [h, mapGet]
    · simp [h, mapGet, ih]

theorem mapGet_mapSet_ne (m : List (String × α)) (k k2 : String) (v : α)
    (h : k2 ≠ k) : mapGet (mapSet m k v) k2 = mapGet m k2 := by
  induction m with
  | nil => simp [mapSet, mapGet, Ne.symm h]
  | cons kv rest ih =>
    obtain ⟨k3, v3⟩ := kv
    simp only [mapSet]
    by_cases h3 : k3 = k
    · subst h3
      rw [if_pos rfl]
      simp only [mapGet]
      simp [Ne.symm h]
    · simp only [if_neg h3, mapGet]
      by_cases h4 : k3 = k2
      · simp [h4]
      · simp [h4, ih]

theorem mem_keys_mapSet (m : List (String × α)) (k k2 : String) (v : α) :
    k2 ∈ (mapSet m k v).map Prod.fst ↔ k2 ∈ m.map Prod.fst ∨ k2 = k := by
  induction m with
  | nil => simp [mapSet]
  | cons kv rest ih =>
    obtain ⟨k3, v3⟩ := kv
    simp only [mapSet]
    by_cases h : k3 = k
    · subst h
      rw [if_pos rfl]
      simp only [List.map_cons, List.mem_cons]
      tauto
    · simp only [if_neg h, List.map_cons, List.mem_cons, ih]
      tauto

theorem nodup_keys_mapSet (m : List (String × α)) (k : String) (v : α)
    (h : (m.map Prod.fst).Nodup) : ((mapSet m k v).map Prod.fst).Nodup := by
  induction m with
  | nil => simp [mapSet]
  | cons kv rest ih =>
    obtain ⟨k3, v3⟩ := kv
    simp only [List.map_cons, List.nodup_cons] at h
    simp only [mapSet]
    by_cases h3 : k3 = k
    · subst h3
      rw [if_pos rfl]
      simp only [List.map_cons, List.nodup_cons]
      exact h
    · simp only [if_neg h3, List.map_cons, List.nodup_cons]
      refine ⟨?_, ih h.2⟩
      rw [mem_keys_mapSet]
      rintro (h4 | rfl)
      · exact h.1 h4
      · exact h3 rfl

theorem mem_mapSet (m : List (String × α)) (k : String) (v : α) (kv : String × α)
    (h : kv ∈ mapSet m k v) : kv ∈ m ∨ kv = (k, v) := by
  induction m with
  | nil => simpa [mapSet] using h
  | cons kv2 rest ih =>
    obtain ⟨k3, v3⟩ := kv2
    simp only [mapSet] at h
    by_cases h3 : k3 = k
    · subst h3
      rw [if_pos rfl] at h
      rcases List.mem_cons.1 h with rfl | h4
      · exact Or.inr rfl
      · exact Or.inl (List.mem_cons_of_mem _ h4)
    · rw [if_neg h3] at h
      rcases List.mem_cons.1 h with rfl | h4
      · exact Or.inl (List.mem_cons_self _ _)
      · rcases ih h4 with h5 | h5
        · exact Or.inl (List.mem_cons_of_mem _ h5)
        · exact Or.inr h5

theorem getLast?_cons_or (a : α) (l : List α) (z : Option α) :
    ((a :: l).getLast?).or z = (l.getLast?).or (some a) := by
  cases l with
  | nil => rfl
  | cons b t =>
    rw [List.getLast?_cons_cons]
    cases e : (b :: t).getLast? with
    | none =>
      have h2 := (List.getLast?_isSome (l := b :: t)).2 (by simp)
      rw [e] at h2
      simp at h2
    | some x => simp [Option.or]

/-- The id-less output of the dedupe loop: the input suffix of rows whose
`id` is null or undefined, appended to the accumulator. -/
theorem dedupeRows_snd (rows : List Row) (m : List (String × Row)) (w : List Row) :
    (dedupeRows rows m w).2 = w ++ rows.filter (fun r => ¬ r.id.notNull) := by
  induction rows generalizing m w with
  | nil => simp [dedupeRows]
  | cons r rest ih =>
    simp only [dedupeRows]
    by_cases h : r.id.notNull = true
    · simp [h, ih]
    · simp [h, ih, List.filter_cons]

/-- Last-write-wins: the dedupe map holds, at key `s`, the last input row
whose identity is `s` (falling back to the incoming map). -/
theorem dedupeRows_mapGet (rows : List Row) (m : List (String × Row))
    (w : List Row) (s : String) :
    mapGet (dedupeRows rows m w).1 s =
      ((rows.filter (keyIs s)).getLast?).or (mapGet m s) := by
  induction rows generalizing m w with
  | nil => simp [dedupeRows]
  | cons r rest ih =>
    simp only [dedupeRows]
    by_cases h : r.id.notNull = true
    · by_cases hk : r.id.toStr = s
      · have hkey : keyIs s r = true := by simp [keyIs, h, hk]
        rw [List.filter_cons_of_pos hkey, getLast?_cons_or]
        simp only [h, if_true]
        rw [ih, hk, mapGet_mapSet_self]
      · have hkey : ¬ keyIs s r = true := by simp [keyIs, hk]
        rw [List.filter_cons_of_neg hkey]
        simp only [h, if_true]
        rw [ih, mapGet_mapSet_ne _ _ _ _ (fun h2 => hk h2.symm)]
    · have hkey : ¬ keyIs s r = true := by simp [keyIs, h]
      rw [List.filter_cons_of_neg hkey]
      simp only [h, if_false]
      exact ih _ _

/-- Every entry of the dedupe map pairs a key with a row whose identity is
that key. -/
theorem dedupeRows_keysGood (rows : List Row) (m : List (String × Row))
    (w : List Row)
    (hm : ∀ kv ∈ m, kv.1 = (kv.2 : Row).id.toStr ∧ (kv.2 : Row).id.notNull = true) :
    ∀ kv ∈ (dedupeRows rows m w).1,
      kv.1 = (kv.2 : Row).id.toStr ∧ (kv.2 : Row).id.notNull = true := by
  induction rows generalizing m w with
  | nil => simpa [dedupeRows] using hm
  | cons r rest ih =>
    simp only [dedupeRows]
    by_cases h : r.id.notNull = true
    · simp only [h, if_true]
      refine ih _ _ ?_
      intro kv hkv
      rcases mem_mapSet _ _ _ _ hkv with h2 | h2
      · exact hm kv h2
      · subst h2
        exact ⟨rfl, h⟩
    · simp only [h, if_false]
      exact ih _ _ hm

/-- The dedupe map never repeats a key. -/
theorem dedupeRows_nodupKeys (rows : List Row) (m : List (String × Row))
    (w : List Row) (hm : (m.map Prod.fst).Nodup) :
    (((dedupeRows rows m w).1).map Prod.fst).Nodup := by
  induction rows generalizing m w with
  | nil => simpa [dedupeRows] using hm
  | cons r rest ih =>
    simp only [dedupeRows]
    by_cases h : r.id.notNull = true
    · simp only [h, if_true]
      exact ih _ _ (nodup_keys_mapSet _ _ _ hm)
    · simp only [h, if_false]
      exact ih _ _ hm

/-- Filtering the dedupe map's values for identity `s` recovers exactly the
value stored under key `s`. -/
theorem values_filter_keyIs (m : List (String × Row)) (s : String)
    (hnd : (m.map Prod.fst).Nodup)
    (hg : ∀ kv ∈ m, kv.1 = (kv.2 : Row).id.toStr ∧ (kv.2 : Row).id.notNull = true) :
    (m.map Prod.snd).filter (keyIs s) = (mapGet m s).toList := by
  induction m with
  | nil => simp [mapGet]
  | cons kv rest ih =>
    obtain ⟨k, v⟩ := kv
    obtain ⟨hk, hvnn⟩ := hg (k, v) (List.mem_cons_self _ _)
    simp only [List.map_cons, List.nodup_cons] at hnd
    simp only [List.map_cons, mapGet]
    by_cases hks : k = s
    · subst hks
      rw [if_pos rfl]
      have hkey : keyIs k v = true := by
        simp only [keyIs, hvnn, Bool.true_and, beq_iff_eq]
        exact hk.symm
      rw [List.filter_cons_of_pos hkey]
      have hrest : (rest.map Prod.snd).filter (keyIs k) = [] := by
        rw [List.filter_eq_nil_iff]
        intro v2 hv2 hkey2
        obtain ⟨kv2, hkv2, rfl⟩ := List.mem_map.1 hv2
        obtain ⟨hk2, _⟩ := hg kv2 (List.mem_cons_of_mem _ hkv2)
        simp only [keyIs, Bool.and_eq_true, beq_iff_eq] at hkey2
        exact hnd.1 (List.mem_map.2 ⟨kv2, hkv2, by rw [hk2, hkey2.2]⟩)
      rw [hrest]
      simp
    · rw [if_neg hks]
      have hkey : ¬ keyIs s v = true := by
        simp only [keyIs, Bool.and_eq_true, beq_iff_eq]
        rintro ⟨h1, h2⟩
        exact hks (hk.trans h2)
      rw [List.filter_cons_of_neg hkey]
      exact ih hnd.2 (fun kv h2 => hg kv (List.mem_cons_of_mem _ h2))

/-- Claim C10 helper: with the cap argument 0 the final `slice` is skipped
and `latestByDate` returns the whole deduplicated, ranked list. -/
theorem latestByDate_zero (rows : List Row) :
    latestByDate rows 0 = dedupedRanked rows := rfl

/-- C1 (amended): the dedupe map is last-write-wins: for every identity `s`,
the output of the dedupe/rank procedure contains exactly the last input row
carrying `s` (and nothing else with that identity). -/
theorem latestByDate_keeps_last_per_id (rows : List Row) (s : String) :
    (latestByDate rows 0).filter (keyIs s) =
      ((rows.filter (keyIs s)).getLast?).toList := by
  have hgood := dedupeRows_keysGood rows [] [] (by simp)
  have hnd := dedupeRows_nodupKeys rows [] [] (by simp)
  have heq : latestByDate rows 0 = jsSortBy rowLe
      ((dedupeRows rows [] []).1.map Prod.snd ++ (dedupeRows rows [] []).2) := rfl
  rw [heq]
  have hperm := (jsSortBy_perm rowLe
    ((dedupeRows rows [] []).1.map Prod.snd ++ (dedupeRows rows [] []).2)).filter (keyIs s)
  rw [List.filter_append] at hperm
  rw [values_filter_keyIs _ s hnd hgood] at hperm
  have hwf : ((dedupeRows rows [] []).2).filter (keyIs s) = [] := by
    rw [dedupeRows_snd rows [] []]
    simp only [List.nil_append]
    rw [List.filter_eq_nil_iff]
    intro r hr
    have h2 := (List.mem_filter.1 hr).2
    simp only [keyIs, Bool.and_eq_true]
    rintro ⟨h3, _⟩
    simp only [decide_eq_true_eq] at h2
    exact h2 h3
  rw [hwf, List.append_nil] at hperm
  rw [dedupeRows_mapGet rows [] [] s] at hperm
  simp only [mapGet, Option.or_none] at hperm
  cases e : (rows.filter (keyIs s)).getLast? with
  | none =>
    rw [e] at hperm
    simpa using hperm.eq_nil
  | some x =>
    rw [e] at hperm
    simpa using List.perm_singleton.1 hperm

/-- C1, counterexample: on the specification's own ranking example the
procedure keeps the LAST item carrying id 1 (createdDate 2024-01-02), not
the first one (2024-01-01): the output is `[id 2 @ 2024-03-01,
id 1 @ 2024-01-02]` and differs from the claimed
`[id 2 @ 2024-03-01, id 1 @ 2024-01-01]`. -/
theorem latestByDate_first_item_refuted :
    latestByDate [c1row1, c1row2, c1row3] 500 = [c1row2, c1row3] ∧
    latestByDate [c1row1, c1row2, c1row3] 500 ≠ [c1row2, c1row1] ∧
    c1row1.createdDate = .str "2024-01-01" ∧
    c1row3.createdDate = .str "2024-01-02" := by
  decide

/-- C5, counterexample: an item whose five date fields are all missing
resolves to epoch zero yet ranks FIRST, not last, when another item has a
pre-epoch (negative) resolved date. -/
theorem latestByDate_rank_last_refuted :
    resolvedDate c5noDate = 0 ∧
    resolvedDate c5preEpoch = -31536000000 ∧
    latestByDate [c5noDate, c5preEpoch] 500 = [c5noDate, c5preEpoch] ∧
    (latestByDate [c5noDate, c5preEpoch] 500).getLast? ≠ some c5noDate := by
  decide

/-- C5 (amended): the output of `latestByDate` is sorted in non-increasing
order of the resolved date — the first non-zero `parseDate` over
`createdDate`, `createdAt`, `date`, `created`, `updatedDate` in that order —
and an item with every date missing or unparseable resolves to epoch zero
(hence ranks after every positively-dated item, though pre-epoch negative
dates rank after it). -/
theorem latestByDate_sorted_desc :
    (∀ rows limit, (latestByDate rows limit).Pairwise
      (fun a b => resolvedDate b ≤ resolvedDate a)) ∧
    resolvedDate {} = 0 := by
  constructor
  · intro rows limit
    have hp := pairwise_jsSortBy rowLe rowLe_total rowLe_trans
      ((dedupeRows rows [] []).1.map Prod.snd ++ (dedupeRows rows [] []).2)
    have hs : List.Pairwise (fun a b => resolvedDate b ≤ resolvedDate a)
        (jsSortBy rowLe
          ((dedupeRows rows [] []).1.map Prod.snd ++ (dedupeRows rows [] []).2)) :=
      hp.imp fun {a b} h => by simpa [rowLe] using h
    have heq : latestByDate rows limit =
        if limit ≠ 0 then
          (jsSortBy rowLe
            ((dedupeRows rows [] []).1.map Prod.snd ++ (dedupeRows rows [] []).2)).take limit
        else jsSortBy rowLe
          ((dedupeRows rows [] []).1.map Prod.snd ++ (dedupeRows rows [] []).2) := rfl
    rw [heq]
    split
    · exact hs.sublist (List.take_sublist _ _)
    · exact hs
  · rfl

/-- C10: a `limit` of 0 is falsy, so the final cap of the dedupe/rank/limit
procedure is skipped: `latestByDate(rows, 0)` is the entire deduplicated
ranked list, and `fetchLatestReviews(token, nmId, 0)` requests
`min(max(0, 1), 500) = 1` item per partition and returns the merged result
uncapped. -/
theorem fetchLatestReviews_zero_uncapped :
    (∀ fetch nmId, fetchLatestReviews fetch nmId 0 =
      dedupedRanked (fetch ⟨nmId, false, 1, 0⟩ ++ fetch ⟨nmId, true, 1, 0⟩)) ∧
    (∀ rows, latestByDate rows 0 = dedupedRanked rows) ∧
    min (max 0 1) 500 = 1 := by
  refine ⟨fun fetch nmId => ?_, fun rows => latestByDate_zero rows, by decide⟩
  show latestByDate _ 0 = _
  rw [latestByDate_zero]
  norm_num

/-- C2, counterexample: with one page holding cards `[A, A, B]`
(`A` duplicated) and `maxItems = 2`, the source truncates the raw cards to
two items BEFORE normalizing, so dedup runs on `[A, A]` and only product A
survives; normalizing the full accumulated set and truncating afterwards
would keep both products. -/
theorem fetchProductCards_order_refuted :
    fetchProductCards asciiBaseCmp c2pages 100 2 5 =
      [{ nm_id := 1, title := "a", vendor_code := "-", photo_url := none }] ∧
    (normalizeProducts asciiBaseCmp (fetchRawCards c2pages 100 2 5 0 [])).take 2 =
      [{ nm_id := 1, title := "a", vendor_code := "-", photo_url := none },
       { nm_id := 2, title := "b", vendor_code := "-", photo_url := none }] ∧
    fetchProductCards asciiBaseCmp c2pages 100 2 5 ≠
      (normalizeProducts asciiBaseCmp (fetchRawCards c2pages 100 2 5 0 [])).take 2 := by
  decide

/-- C2 (amended): `fetchProductCards` truncates the accumulated raw cards to
`maxItems` first and only then normalizes: its result equals
`normalizeProducts (take maxItems cards)`, so deduplication operates on the
truncated prefix, not the full accumulated set. -/
theorem fetchProductCards_truncate_then_normalize
    (cmp : String → String → Int) (pages : Nat → CardsPage)
    (pageSize maxItems fuel : Nat) :
    fetchProductCards cmp pages pageSize maxItems fuel =
      normalizeProducts cmp
        ((fetchRawCards pages pageSize maxItems fuel 0 []).take maxItems) := rfl

/-- C7: when the remote backend is configured and the call fails, `setValue`
writes to the in-process fallback map and resolves `false`; with no remote
backend configured it resolves `true` and a subsequent `getValue` in the
same process returns the value; and `setValue` never throws. -/
theorem setValue_fallback_semantics :
    ∀ (env : KvEnv) (remoteSet : Except String Unit)
      (remoteGet : Except String (Option String))
      (store : List (String × String)) (k v e : String),
      (hasKV env = true → remoteSet = .error e →
        setValue env remoteSet store k v = (.ok false, mapSet store k v)) ∧
      (hasKV env = false →
        setValue env remoteSet store k v = (.ok true, mapSet store k v) ∧
        getValue env remoteGet (mapSet store k v) k = .ok (some v)) ∧
      (∃ b st, setValue env remoteSet store k v = (.ok b, st)) := by
  intro env remoteSet remoteGet store k v e
  refine ⟨?_, ?_, ?_⟩
  · intro hkv herr
    subst herr
    simp [setValue, hkv]
  · intro hkv
    constructor
    · simp [setValue, hkv]
    · simp [getValue, hkv, mapGet_mapSet_self]
  · by_cases hkv : hasKV env = true
    · cases remoteSet with
      | ok u => exact ⟨true, store, by simp [setValue, hkv]⟩
      | error e2 => exact ⟨false, mapSet store k v, by simp [setValue, hkv]⟩
    · exact ⟨true, mapSet store k v, by simp [setValue, hkv]⟩

/-- C7, witness: both branches exercised at concrete inputs. -/
theorem setValue_fallback_semantics_witness :
    (hasKV c7env = true ∧
      setValue c7env (.error "boom") [] "k" "v" = (.ok false, [("k", "v")])) ∧
    (hasKV {} = false ∧
      setValue {} (.ok ()) [] "k" "v" = (.ok true, [("k", "v")]) ∧
      getValue {} (.ok none) (mapSet [] "k" "v") "k" = .ok (some "v")) := by
  refine ⟨⟨by decide, ?_⟩, ⟨by decide, ?_, ?_⟩⟩
  · exact (setValue_fallback_semantics c7env (.error "boom") (.ok none) [] "k" "v"
      "boom").1 (by decide) rfl
  · exact ((setValue_fallback_semantics {} (.ok ()) (.ok none) [] "k" "v"
      "x").2.1 (by decide)).1
  · exact ((setValue_fallback_semantics {} (.ok ()) (.ok none) [] "k" "v"
      "x").2.1 (by decide)).2

/-- The partition walk is insensitive to the iteration budget once the
budget covers the offset ceiling: continuing costs at least 1000 of offset
per iteration and stops beyond 10000. -/
theorem questionsWalkFuel_stable (fetch : FeedbackReq → List Row)
    (nmId : Option Int) (limit : Nat) (isAnswered : Bool) :
    ∀ f1 f2 skip items, skip ≤ 10000 →
      12000 ≤ 1000 * f1 + skip → 12000 ≤ 1000 * f2 + skip →
      questionsWalkFuel fetch nmId limit isAnswered f1 skip items =
        questionsWalkFuel fetch nmId limit isAnswered f2 skip items := by
  intro f1
  induction f1 with
  | zero =>
    intro f2 skip items hs h1 h2
    exfalso
    omega
  | succ g ih =>
    intro f2 skip items hs h1 h2
    cases f2 with
    | zero =>
      exfalso
      omega
    | succ g2 =>
      simp only [questionsWalkFuel]
      by_cases hl : items.length < limit
      · simp only [hl, if_true]
        by_cases hbz : (fetch ⟨nmId, isAnswered, 1000, skip⟩).length = 0
        · simp [hbz]
        · simp only [hbz, if_false]
          by_cases hshort : (fetch ⟨nmId, isAnswered, 1000, skip⟩).length < 1000
          · simp [hshort]
          · simp only [hshort, if_false]
            by_cases hcap : skip + (fetch ⟨nmId, isAnswered, 1000, skip⟩).length > 10000
            · simp [hcap]
            · simp only [hcap, if_false]
              exact ih g2 (skip + (fetch ⟨nmId, isAnswered, 1000, skip⟩).length)
                (items ++ fetch ⟨nmId, isAnswered, 1000, skip⟩)
                (by omega) (by omega) (by omega)
      · simp [hl]

/-- C9: each partition walk of `fetchAllQuestions` stops on a short page, on
reaching `limit`, or once the offset passes 10000 — within 12 pages for any
oracle — so the walk's value is independent of any iteration budget of at
least 12 and `fetchAllQuestions` is a total function of its inputs. -/
theorem fetchAllQuestions_total (fetch : FeedbackReq → List Row)
    (nmId : Option Int) (limit : Nat) (isAnswered : Bool) (f1 f2 : Nat)
    (items : List Row) (h1 : 12 ≤ f1) (h2 : 12 ≤ f2) :
    questionsWalkFuel fetch nmId limit isAnswered f1 0 items =
      questionsWalkFuel fetch nmId limit isAnswered f2 0 items ∧
    fetchAllQuestions fetch nmId limit =
      latestByDate (questionsWalkFuel fetch nmId limit true f1 0
        (questionsWalkFuel fetch nmId limit false f2 0 [])) limit := by
  have hw := questionsWalkFuel_stable fetch nmId limit isAnswered f1 f2 0 items
    (by omega) (by omega) (by omega)
  refine ⟨hw, ?_⟩
  show latestByDate (questionsWalkFuel fetch nmId limit true 12 0
    (questionsWalkFuel fetch nmId limit false 12 0 [])) limit = _
  rw [questionsWalkFuel_stable fetch nmId limit false 12 f2 0 []
      (by omega) (by omega) (by omega),
    questionsWalkFuel_stable fetch nmId limit true 12 f1 0 _
      (by omega) (by omega) (by omega)]

/-- No product of the dedupe loop reuses an identifier from `seen`, and the
emitted identifiers are pairwise distinct. -/
theorem normFilter_nodup (cards : List Card) (seen : List Int) :
    ((normFilter cards seen).map Product.nm_id).Nodup ∧
    ∀ p ∈ normFilter cards seen, p.nm_id ∉ seen := by
  induction cards generalizing seen with
  | nil => simp [normFilter]
  | cons c rest ih =>
    simp only [normFilter]
    cases hres : resolvedId c with
    | none => exact ih seen
    | some n =>
      by_cases hn : n ∈ seen
      · simp only [hn, if_true]
        exact ih seen
      · simp only [hn, if_false]
        obtain ⟨ihnd, ihseen⟩ := ih (n :: seen)
        refine ⟨?_, ?_⟩
        · simp only [List.map_cons, List.nodup_cons]
          refine ⟨?_, ihnd⟩
          intro hmem
          obtain ⟨p, hp, hpn⟩ := List.mem_map.1 hmem
          have := ihseen p hp
          rw [hpn] at this
          exact this (List.mem_cons_self _ _)
        · intro p hp
          rcases List.mem_cons.1 hp with rfl | hp2
          · exact hn
          · intro hmem
            exact ihseen p hp2 (List.mem_cons_of_mem _ hmem)

theorem find?_cons_false {p : α → Bool} {a : α} (l : List α) (h : p a = false) :
    List.find? p (a :: l) = List.find? p l := by
  simp [List.find?_cons, h]

theorem find?_cons_true {p : α → Bool} {a : α} (l : List α) (h : p a = true) :
    List.find? p (a :: l) = some a := by
  simp [List.find?_cons, h]

/-- Each emitted product arises from the first not-yet-seen card carrying
its identifier. -/
theorem normFilter_first_wins (cards : List Card) (seen : List Int) :
    ∀ p ∈ normFilter cards seen,
      ∃ c, cards.find? (fun c2 => resolvedId c2 == some p.nm_id) = some c ∧
        resolvedId c = some p.nm_id ∧ p = toProduct c p.nm_id := by
  induction cards generalizing seen with
  | nil => simp [normFilter]
  | cons c rest ih =>
    intro p hp
    cases hres : resolvedId c with
    | none =>
      have heq : normFilter (c :: rest) seen = normFilter rest seen := by
        simp [normFilter, hres]
      rw [heq] at hp
      rw [find?_cons_false rest
        (show (fun c2 => resolvedId c2 == some p.nm_id) c = false by simp [hres])]
      exact ih seen p hp
    | some n =>
      by_cases hn : n ∈ seen
      · have heq : normFilter (c :: rest) seen = normFilter rest seen := by
          simp [normFilter, hres, hn]
        rw [heq] at hp
        have hnin := (normFilter_nodup rest seen).2 p hp
        rw [find?_cons_false rest
          (show (fun c2 => resolvedId c2 == some p.nm_id) c = false by
            show (resolvedId c == some p.nm_id) = false
            rw [hres]
            simp only [beq_eq_false_iff_ne, ne_eq, Option.some.injEq]
            intro he
            exact hnin (he ▸ hn))]
        exact ih seen p hp
      · have heq : normFilter (c :: rest) seen =
            toProduct c n :: normFilter rest (n :: seen) := by
          simp [normFilter, hres, hn]
        rw [heq] at hp
        rcases List.mem_cons.1 hp with rfl | hp2
        · refine ⟨c, ?_, hres, rfl⟩
          exact find?_cons_true rest (by simp [hres, toProduct])
        · have hnin := (normFilter_nodup rest (n :: seen)).2 p hp2
          rw [find?_cons_false rest
            (show (fun c2 => resolvedId c2 == some p.nm_id) c = false by
              show (resolvedId c == some p.nm_id) = false
              rw [hres]
              simp only [beq_eq_false_iff_ne, ne_eq, Option.some.injEq]
              intro he
              exact hnin (he ▸ List.mem_cons_self _ _))]
          exact ih (n :: seen) p hp2

/-- C6: each raw-card identifier contributes at most one `Product`
(identifiers of the normalized output are pairwise distinct), that product
is built from the first card in input order whose resolved identifier
(`Number(nmID ?? nmId)`, finite) matches, and unparseable cards contribute
nothing (every product traces back to a card with a finite identifier). -/
theorem normalizeProducts_dedup_first_card
    (cmp : String → String → Int) (cards : List Card) :
    ((normalizeProducts cmp cards).map Product.nm_id).Nodup ∧
    ∀ p ∈ normalizeProducts cmp cards,
      ∃ c, cards.find? (fun c2 => resolvedId c2 == some p.nm_id) = some c ∧
        resolvedId c = some p.nm_id ∧ p = toProduct c p.nm_id := by
  have hperm := jsSortBy_perm (prodLe cmp) (normFilter cards [])
  constructor
  · exact (hperm.map Product.nm_id).nodup_iff.2 (normFilter_nodup cards []).1
  · intro p hp
    exact normFilter_first_wins cards [] p (hperm.mem_iff.1 hp)

/-- C6, witness: the dedup invariant applied to two cards sharing
identifier 7 — the survivor is built from the first card. -/
theorem normalizeProducts_dedup_first_card_witness :
    (((normalizeProducts asciiBaseCmp [c6cardA, c6cardB]).map Product.nm_id).Nodup ∧
      toProduct c6cardA 7 ∈ normalizeProducts asciiBaseCmp [c6cardA, c6cardB]) ∧
    (∃ c, [c6cardA, c6cardB].find?
        (fun c2 => resolvedId c2 == some (toProduct c6cardA 7).nm_id) = some c ∧
      resolvedId c = some (toProduct c6cardA 7).nm_id ∧
      toProduct c6cardA 7 = toProduct c (toProduct c6cardA 7).nm_id) :=
  ⟨⟨(normalizeProducts_dedup_first_card asciiBaseCmp [c6cardA, c6cardB]).1, by decide⟩,
    (normalizeProducts_dedup_first_card asciiBaseCmp [c6cardA, c6cardB]).2
      (toProduct c6cardA 7) (by decide)⟩

theorem candLe_refl (a : Cand) : candLe a a := by
  simp [candLe_iff]

/-- The head of a non-empty stable sort is a maximum of the input. -/
theorem jsSortBy_head_max (le : α → α → Bool)
    (total : ∀ a b, le a b || le b a)
    (trans : ∀ a b c, le a b → le b c → le a c)
    (l : List α) (hne : l ≠ []) :
    ∃ c0 tl, jsSortBy le l = c0 :: tl ∧ c0 ∈ l ∧ ∀ x ∈ l, le c0 x := by
  cases e : jsSortBy le l with
  | nil =>
    have hp := jsSortBy_perm le l
    rw [e] at hp
    exact absurd hp.symm.eq_nil hne
  | cons c0 tl =>
    refine ⟨c0, tl, rfl, ?_, ?_⟩
    · exact (jsSortBy_perm le l).mem_iff.1 (e ▸ List.mem_cons_self _ _)
    · intro x hx
      have hx2 := (jsSortBy_perm le l).mem_iff.2 hx
      rw [e] at hx2
      rcases List.mem_cons.1 hx2 with rfl | hx3
      · have := total x x
        simpa using this
      · have hp := pairwise_jsSortBy le total trans l
        rw [e] at hp
        exact (List.pairwise_cons.1 hp).1 x hx3

theorem candsOfItem_base (b : Int) (i : Nat) (item : PhotoItem) (c : Cand)
    (h : c ∈ candsOfItem b i item) : c.base = b := by
  cases item with
  | prim p =>
    cases p with
    | str s =>
      simp only [candsOfItem] at h
      by_cases hs : strStartsWith s "http" = true
      · rw [if_pos hs] at h
        rcases List.mem_cons.1 h with rfl | h2
        · rfl
        · simp at h2
      · rw [if_neg hs] at h
        simp at h
    | undef => simp [candsOfItem] at h
    | null => simp [candsOfItem] at h
    | bool b2 => simp [candsOfItem] at h
    | num n => simp [candsOfItem] at h
  | obj o =>
    simp only [candsOfItem] at h
    obtain ⟨kv, hkv, hf⟩ := List.mem_filterMap.1 h
    split at hf
    · split at hf
      · cases hf
        rfl
      · cases hf
    · cases hf

theorem collectFrom_base (b : Int) :
    ∀ (i : Nat) (l : List PhotoItem), ∀ c ∈ collectFrom b i l, c.base = b := by
  intro i l
  induction l generalizing i with
  | nil => simp [collectFrom]
  | cons item rest ih =>
    intro c hc
    rcases List.mem_append.1 hc with h | h
    · exact candsOfItem_base b i item c h
    · exact ih (i + 1) c h

theorem collect_base (items : Option (List PhotoItem)) (b : Int) :
    ∀ c ∈ collect items b, c.base = b := by
  cases items with
  | none => simp [collect]
  | some l => exact collectFrom_base b 0 l

/-- A collection entry that is an object with an `http` URL under `tm`
contributes a candidate. -/
theorem collectFrom_obj_tm_mem (b : Int) (l : List PhotoItem) (o : PhotoObj)
    (u : String) (ho : PhotoItem.obj o ∈ l) (htm : o.tm = .str u)
    (hhttp : strStartsWith u "http" = true) :
    ∀ i, ∃ c, c ∈ collectFrom b i l := by
  induction l with
  | nil => simp at ho
  | cons item rest ih =>
    intro i
    rcases List.mem_cons.1 ho with rfl | h2
    · refine ⟨⟨b, if o.isMain = .bool true then 1 else 0, 45, -(i : Int), u⟩, ?_⟩
      refine List.mem_append.2 (Or.inl ?_)
      simp only [candsOfItem]
      refine List.mem_filterMap.2 ⟨(45, o.tm), ?_, ?_⟩
      · simp [keyScores]
      · rw [htm]
        simp [hhttp]
    · obtain ⟨c, hc⟩ := ih h2 (i + 1)
      exact ⟨c, List.mem_append.2 (Or.inr hc)⟩

/-- C4: when the `photos` collection holds a non-main object entry with an
`http` URL under key `tm` and `mediaFiles` holds an entry marked
`isMain: true` bearing a URL, the selected photo URL comes from the `photos`
collection (base score 30): collection priority dominates and the is-main
flag only matters between candidates of equal collection priority. -/
theorem selectPhotoUrl_collection_priority (card : Card)
    (ph mf : List PhotoItem) (o om : PhotoObj) (tmUrl mainUrl : String)
    (hph : card.photos = some ph) (ho : PhotoItem.obj o ∈ ph)
    (honm : o.isMain ≠ .bool true) (htm : o.tm = .str tmUrl)
    (hhttp : strStartsWith tmUrl "http" = true)
    (hmf : card.mediaFiles = some mf) (hom : PhotoItem.obj om ∈ mf)
    (hmain : om.isMain = .bool true)
    (hmu : ∃ kv ∈ keyScores om, kv.2 = .str mainUrl ∧
      strStartsWith mainUrl "http" = true) :
    ∃ c ∈ collect card.photos 30, c.base = 30 ∧
      selectPhotoUrl card = some (appendPhotoVersion c.url card) := by
  obtain ⟨ctm, hctm⟩ := collectFrom_obj_tm_mem 30 ph o tmUrl ho htm hhttp 0
  have hctm2 : ctm ∈ collect card.photos 30 := by
    rw [hph]
    exact hctm
  have hcands : ctm ∈ cardCands card :=
    List.mem_append.2 (Or.inl (List.mem_append.2 (Or.inl hctm2)))
  have hne : cardCands card ≠ [] := fun h => by simp [h] at hcands
  obtain ⟨c0, tl, he, hc0mem, hc0max⟩ :=
    jsSortBy_head_max candLe candLe_total candLe_trans (cardCands card) hne
  have hc0base : c0.base = 30 := by
    have hle := hc0max ctm hcands
    have htmbase : ctm.base = 30 := collect_base card.photos 30 ctm hctm2
    rcases List.mem_append.1 hc0mem with h1 | h2
    · rcases List.mem_append.1 h1 with h3 | h4
      · exact collect_base card.photos 30 c0 h3
      · have := collect_base card.mediaFiles 20 c0 h4
        rw [candLe_iff, htmbase, this] at hle
        omega
    · have := collect_base card.images 10 c0 h2
      rw [candLe_iff, htmbase, this] at hle
      omega
  have hc0photos : c0 ∈ collect card.photos 30 := by
    rcases List.mem_append.1 hc0mem with h1 | h2
    · rcases List.mem_append.1 h1 with h3 | h4
      · exact h3
      · have := collect_base card.mediaFiles 20 c0 h4
        omega
    · have := collect_base card.images 10 c0 h2
      omega
  refine ⟨c0, hc0photos, hc0base, ?_⟩
  simp only [selectPhotoUrl]
  rw [he]

/-- C4, witness: the priority theorem applied to the concrete example card;
the chosen URL is the `photos` `tm` entry, not the main `mediaFiles` one. -/
theorem selectPhotoUrl_collection_priority_witness :
    (∃ c ∈ collect c4card.photos 30, c.base = 30 ∧
      selectPhotoUrl c4card = some (appendPhotoVersion c.url c4card)) ∧
    selectPhotoUrl c4card = some "http://photos.example/tm.jpg" :=
  ⟨selectPhotoUrl_collection_priority c4card [.obj c4tmObj] [.obj c4mainObj]
      c4tmObj c4mainObj "http://photos.example/tm.jpg" "http://media.example/main.jpg"
      rfl (by decide) (by decide) rfl (by decide) rfl (by decide) rfl
      ⟨(60, c4mainObj.big), by decide, by decide⟩,
    by decide⟩

theorem mem_setAdd_fold (row : List (String × Json)) :
    ∀ (acc : List String) (k : String),
      (k ∈ row.foldl
        (fun acc2 kv => if kv.1 ∈ acc2 then acc2 else acc2 ++ [kv.1]) acc) ↔
        (k ∈ acc ∨ k ∈ row.map Prod.fst) := by
  induction row with
  | nil => simp
  | cons kv rest ih =>
    intro acc k
    simp only [List.foldl_cons, List.map_cons, List.mem_cons]
    rw [ih]
    by_cases h : kv.1 ∈ acc
    · rw [if_pos h]
      constructor
      · rintro (ha | hr)
        · exact Or.inl ha
        · exact Or.inr (Or.inr hr)
      · rintro (ha | rfl | hr)
        · exact Or.inl ha
        · exact Or.inl h
        · exact Or.inr hr
    · rw [if_neg h]
      simp only [List.mem_append, List.mem_singleton]
      tauto

theorem mem_headerKeys_fold (fl : List (List (String × Json))) :
    ∀ (acc : List String) (k : String),
      (k ∈ fl.foldl (fun acc row => row.foldl
          (fun acc2 kv => if kv.1 ∈ acc2 then acc2 else acc2 ++ [kv.1]) acc) acc) ↔
        (k ∈ acc ∨ ∃ row ∈ fl, k ∈ row.map Prod.fst) := by
  induction fl with
  | nil => simp
  | cons row rest ih =>
    intro acc k
    simp only [List.foldl_cons]
    rw [ih, mem_setAdd_fold]
    constructor
    · rintro ((ha | hrow) | ⟨r, hr, hk⟩)
      · exact Or.inl ha
      · exact Or.inr ⟨row, List.mem_cons_self _ _, hrow⟩
      · exact Or.inr ⟨r, List.mem_cons_of_mem _ hr, hk⟩
    · rintro (ha | ⟨r, hr, hk⟩)
      · exact Or.inl (Or.inl ha)
      · rcases List.mem_cons.1 hr with rfl | hr2
        · exact Or.inl (Or.inr hk)
        · exact Or.inr ⟨r, hr2, hk⟩

theorem mem_headerKeys (fl : List (List (String × Json))) (k : String) :
    k ∈ headerKeys fl ↔ ∃ row ∈ fl, k ∈ row.map Prod.fst := by
  rw [headerKeys, mem_headerKeys_fold]
  simp

/-- C8: the header row is the ascending code-unit-sorted union of all
dot-joined flattened paths across every row (computed after all rows are
flattened), each input row yields one output line in order with missing
cells empty, the output is prefixed with the byte-order mark, and the
specification's round-trip example holds. -/
theorem toCsv_spec :
    (∀ rows k, k ∈ csvHeaders rows ↔
      ∃ row ∈ rows, k ∈ (flattenRow row).map Prod.fst) ∧
    (∀ rows, (csvHeaders rows).Pairwise (fun a b => strOrdLe a b = true)) ∧
    (∀ rows, toCsv rows = String.mk [Char.ofNat 65279] ++ String.intercalate "\n"
      (String.intercalate "," (csvHeaders rows) ::
        rows.map fun row => String.intercalate ","
          ((csvHeaders rows).map fun key => csvEscape (mapGet (flattenRow row) key)))) ∧
    csvEscape none = "" ∧
    toCsv c8rows = String.mk [Char.ofNat 65279] ++ "a,b.c\n1,2\n3," := by
  refine ⟨?_, ?_, ?_, rfl, by decide⟩
  · intro rows k
    constructor
    · intro hk
      have hk2 := (jsSortBy_perm strOrdLe _).mem_iff.1 hk
      rw [mem_headerKeys] at hk2
      obtain ⟨fr, hfr, hkfr⟩ := hk2
      obtain ⟨row, hrow, rfl⟩ := List.mem_map.1 hfr
      exact ⟨row, hrow, hkfr⟩
    · rintro ⟨row, hrow, hk⟩
      refine (jsSortBy_perm strOrdLe _).mem_iff.2 ?_
      rw [mem_headerKeys]
      exact ⟨flattenRow row, List.mem_map.2 ⟨row, hrow, rfl⟩, hk⟩
  · intro rows
    exact pairwise_jsSortBy strOrdLe strOrdLe_total strOrdLe_trans _
  · intro rows
    simp only [toCsv, csvHeaders, List.map_map]
    rfl

set_option maxRecDepth 10000 in
/-- C3, counterexample: the code derives the signing secret as HMAC-SHA256
KEYED BY the constant string `WebAppData` over the bot token, not (as the
claim states) HMAC-SHA256 of the constant keyed by the bot secret.  At a
concrete initData whose hash matches the code's derivation, the code
accepts while the claim's prescribed hash differs from the supplied one. -/
theorem verifyInitData_direction_refuted :
    verifyInitData (fun _ => true) c3initData c3token 0 86400 = .pass none ∧
    specComputedHash (parseInitData c3initData) c3token ≠
      (bGet (parseInitData c3initData) hashKey).getD [] := by
  decide

/-- C3 (amended): verification builds the newline-joined, key-ascending
string of all key=value pairs except `hash`, derives the secret as
HMAC-SHA256 of the bot token keyed by the constant string `WebAppData`
(the constant is the HMAC key, the bot token the message), computes
HMAC-SHA256 of the check string keyed by that derived secret and — when the
payload carries no `auth_date` and no `user` field — accepts exactly when
the lowercase-hex encoding equals the supplied hash. -/
theorem verifyInitData_signature_check (jsonOk : List Nat → Bool)
    (initData botToken hsh : List Nat) (now maxAge : Int)
    (h1 : initData ≠ []) (h2 : botToken ≠ [])
    (h3 : bGet (parseInitData initData) hashKey = some hsh) (h4 : hsh ≠ [])
    (h5 : bGet (parseInitData initData) (strBytes "auth_date") = none)
    (h6 : bGet (parseInitData initData) (strBytes "user") = none) :
    verifyInitData jsonOk initData botToken now maxAge =
      if hexBytes (hmacSha256 (hmacSha256 (strBytes "WebAppData") botToken)
          (buildDataCheckString (parseInitData initData))) = hsh
      then .pass none else .fail "Invalid initData signature." := by
  simp only [verifyInitData, h1, h2, h3, h4, h5, h6, authDateNum]
  by_cases hc : hexBytes (hmacSha256 (hmacSha256 (strBytes "WebAppData") botToken)
      (buildDataCheckString (parseInitData initData))) = hsh
  · simp [hc]
  · simp [hc]

set_option maxRecDepth 10000 in
/-- C3, witness: the amended signature characterization applied at the
concrete accepting input. -/
theorem verifyInitData_signature_check_witness :
    (c3initData ≠ [] ∧ c3token ≠ [] ∧
      bGet (parseInitData c3initData) hashKey = some (strBytes
        "13fab7f77589147729bb84c7afa3bdf93c4daf70a453a592e180ad7e4ba43074") ∧
      strBytes "13fab7f77589147729bb84c7afa3bdf93c4daf70a453a592e180ad7e4ba43074" ≠ [] ∧
      bGet (parseInitData c3initData) (strBytes "auth_date") = none ∧
      bGet (parseInitData c3initData) (strBytes "user") = none) ∧
    verifyInitData (fun _ => true) c3initData c3token 99 86400 =
      (if hexBytes (hmacSha256 (hmacSha256 (strBytes "WebAppData") c3token)
          (buildDataCheckString (parseInitData c3initData))) = strBytes
          "13fab7f77589147729bb84c7afa3bdf93c4daf70a453a592e180ad7e4ba43074"
       then .pass none else .fail "Invalid initData signature.") :=
  ⟨⟨by decide, by decide, by decide, by decide, by decide, by decide⟩,
    verifyInitData_signature_check (fun _ => true) c3initData c3token
      (strBytes "13fab7f77589147729bb84c7afa3bdf93c4daf70a453a592e180ad7e4ba43074")
      99 86400 (by decide) (by decide) (by decide) (by decide) (by decide) (by decide)⟩

/-- C9, witness: the stabilization applied at budgets 13 and 12 with an
empty-page oracle. -/
theorem fetchAllQuestions_total_witness :
    questionsWalkFuel (fun _ => []) none 5 false 13 0 [] =
      questionsWalkFuel (fun _ => []) none 5 false 12 0 [] ∧
    fetchAllQuestions (fun _ => []) none 5 =
      latestByDate (questionsWalkFuel (fun _ => []) none 5 true 13 0
        (questionsWalkFuel (fun _ => []) none 5 false 12 0 [])) 5 :=
  fetchAllQuestions_total (fun _ => []) none 5 false 13 12 [] (by decide) (by decide)

end WB

